import Mathlib

/-!
Shallow embedding of the tier-list renderer in `src/drawer.ts` (tierMCP).

Source conventions captured here:
* JavaScript numbers in this code are only ever non-negative integers (pixel
  sizes, counts), except for the `lines.length * size * 1.2` comparison in
  `fitText`, which we express exactly as `lines.length * size * 6 ≤ maxHeight * 5`
  (for the integer magnitudes occurring here the double-precision comparison
  agrees with the exact rational one).
* JS falsiness of strings (`s || d`, `if (config.title)`) is modelled by
  explicit emptiness tests.
* The `Record<string, TierItem[]>` bucket object is modelled as an insertion
  ordered association list; assignment to an existing key replaces the value
  in place, assignment to a fresh key appends.
* External collaborators (URL parsing, DNS lookup, HTTP fetch + image decode)
  are an explicit environment `Env`.  Errors of class `ClientError` are
  distinguished from every other thrown value by `JsError`.
* Drawing calls are recorded as a trace of `DrawOp`s; `drawTextItem` and
  `drawLabelText` (drawer.ts:211/241), which internally fit and draw the text,
  are recorded as single composite trace entries carrying their arguments.
-/

namespace TierMCP

/-! ### JS string helpers -/

/-- JS `o || d` for an optional string: `undefined` and `""` are falsy. -/
def jsOr (o : Option String) (d : String) : String :=
  match o with
  | some s => if s = "" then d else s
  | none => d

/-- JS truthiness of an optional string (`if (config.title)`). -/
def jsStrTruthy (o : Option String) : Bool :=
  match o with
  | some s => s ≠ ""
  | none => false

/-- Split a character list at every occurrence of `sep` (JS `String.split`). -/
def splitChars (sep : Char) : List Char → List (List Char)
  | [] => [[]]
  | c :: cs =>
    match splitChars sep cs with
    | [] => [[]]
    | r :: rs => if c = sep then [] :: r :: rs else (c :: r) :: rs

/-- JS `s.split(sep)` for a single-character separator. -/
def jsSplit (s : String) (sep : Char) : List String :=
  (splitChars sep s.toList).map String.mk

/-- JS `s.includes(c)` for a single character. -/
def strContains (s : String) (c : Char) : Bool :=
  s.toList.contains c

/-- JS `s.toLowerCase()` (the strings compared here are ASCII). -/
def jsToLower (s : String) : String :=
  String.mk (s.toList.map Char.toLower)

def charsBegin : List Char → List Char → Bool
  | _, [] => true
  | [], _ :: _ => false
  | a :: as, b :: bs => a == b && charsBegin as bs

/-- JS `s.startsWith(pat)`. -/
def strBegins (s pat : String) : Bool :=
  charsBegin s.toList pat.toList

/-- JS `Number(s)` on the component strings produced by splitting an IP
literal: `""` is `0`, a pure digit string is its value, anything else is `NaN`
(modelled as `none`; every comparison against `NaN` is false). -/
def jsNum (s : String) : Option Nat :=
  let cs := s.toList
  if cs.isEmpty then some 0
  else if cs.all Char.isDigit then
    some (cs.foldl (fun a c => a * 10 + (c.toNat - 48)) 0)
  else none

/-- JS `o == n` where `o` may be `NaN`. -/
def optEq (o : Option Nat) (n : Nat) : Bool :=
  match o with
  | some v => v == n
  | none => false

/-- JS `o >= n` where `o` may be `NaN`. -/
def optGe (o : Option Nat) (n : Nat) : Bool :=
  match o with
  | some v => decide (n ≤ v)
  | none => false

/-- JS `o <= n` where `o` may be `NaN`. -/
def optLe (o : Option Nat) (n : Nat) : Bool :=
  match o with
  | some v => decide (v ≤ n)
  | none => false

/-- JS `l[l.length - 1]` with a default.  In `wrapText` the indexed list is
`breakWord`'s output, which is empty only for an empty word; an empty word can
reach `breakWord` only if the measured width of `""` exceeds `maxWidth`, which
never happens for a real canvas (`measureText("")` is `0`). -/
def jsLastD (l : List String) (d : String) : String :=
  l.getLastD d

/-! ### Adaptive text fitter (drawer.ts:266-365) -/

/-- `breakWord` (drawer.ts:351): split a single word at character granularity
so that each fragment stays within `maxW`. -/
def breakWordAux (measure : String → Nat) (maxW : Nat) : List Char → String → List String
  | [], cur => if cur = "" then [] else [cur]
  | c :: cs, cur =>
    if measure (cur.push c) > maxW then
      cur :: breakWordAux measure maxW cs (String.mk [c])
    else
      breakWordAux measure maxW cs (cur.push c)

def breakWord (measure : String → Nat) (word : String) (maxW : Nat) : List String :=
  breakWordAux measure maxW word.toList ""

/-- The `for (let i = 1; ...)` loop of `wrapText` (drawer.ts:328-347) plus the
final `if (currentLine) lines.push(currentLine)`. -/
def wrapTextAux (measure : String → Nat) (maxW : Nat) :
    List String → String → List String → Bool → List String × Bool
  | [], currentLine, lines, broken =>
    (if currentLine = "" then lines else lines ++ [currentLine], broken)
  | word :: rest, currentLine, lines, broken =>
    if measure (currentLine ++ " " ++ word) < maxW then
      wrapTextAux measure maxW rest (currentLine ++ " " ++ word) lines broken
    else
      if measure word > maxW then
        wrapTextAux measure maxW rest (jsLastD (breakWord measure word maxW) "")
          ((lines ++ [currentLine]) ++ (breakWord measure word maxW).dropLast) true
      else
        wrapTextAux measure maxW rest word (lines ++ [currentLine]) broken

/-- `wrapText` (drawer.ts:307): greedy word wrap at one fixed font, including
the special handling of an overlong first word. -/
def wrapText (measure : String → Nat) (text : String) (maxW : Nat) : List String × Bool :=
  let words := jsSplit text ' '
  let first := words.headD ""
  if measure first > maxW then
    wrapTextAux measure maxW words.tail (jsLastD (breakWord measure first maxW) "")
      ((breakWord measure first maxW).dropLast) true
  else
    wrapTextAux measure maxW words.tail first [] false

/-- A text-measurement capability: weight, font size, text ↦ measured width
(`ctx.measureText` under `ctx.font = weight size px`). -/
def MeasureFn : Type := String → Nat → String → Nat

structure FitResult where
  lines : List String
  fontSize : Nat
deriving Repr, DecidableEq

/-- One iteration of the descending size loop of `fitText` (drawer.ts:279-294):
`inl r` is the early `return`, `inr valid` continues with the updated
`validResultWithBreaks`.  The height test `lines.length * size * 1.2 ≤ maxHeight`
is written exactly over the integers. -/
def fitStep (measure : MeasureFn) (weight text : String) (maxW maxH size : Nat)
    (valid : Option FitResult) : FitResult ⊕ Option FitResult :=
  let r := wrapText (fun t => measure weight size t) text maxW
  if r.1.length * size * 6 ≤ maxH * 5 then
    if r.2 = false then
      Sum.inl ⟨r.1, size⟩
    else
      Sum.inr (valid <|> some ⟨r.1, size⟩)
  else
    Sum.inr valid

/-- The size loop of `fitText`, counting down from `8 + k` to `8`, followed by
the `validResultWithBreaks` return and the 8px fallback (drawer.ts:296-304). -/
def fitAux (measure : MeasureFn) (weight text : String) (maxW maxH : Nat) :
    Nat → Option FitResult → FitResult
  | 0, valid =>
    match fitStep measure weight text maxW maxH 8 valid with
    | Sum.inl r => r
    | Sum.inr valid' =>
      match valid' with
      | some r => r
      | none => ⟨(wrapText (fun t => measure weight 8 t) text maxW).1, 8⟩
  | k + 1, valid =>
    match fitStep measure weight text maxW maxH (8 + (k + 1)) valid with
    | Sum.inl r => r
    | Sum.inr valid' => fitAux measure weight text maxW maxH k valid'

/-- `const startSize = fontWeight === 'bold' ? 24 : 16` (drawer.ts:276). -/
def startSizeOf (fontWeight : String) : Nat :=
  if fontWeight = "bold" then 24 else 16

/-- `fitText` (drawer.ts:266). -/
def fitText (measure : MeasureFn) (text : String) (maxW maxH : Nat)
    (fontWeight : String) : FitResult :=
  if text = "" then ⟨[], 12⟩
  else fitAux measure fontWeight text maxW maxH (startSizeOf fontWeight - 8) none

/-- The wrap produced at one candidate font size. -/
def wrapAt (measure : MeasureFn) (weight : String) (size : Nat) (text : String)
    (maxW : Nat) : List String × Bool :=
  wrapText (fun t => measure weight size t) text maxW

/-- The wrap at `size` fits the box height. -/
def fitsAt (measure : MeasureFn) (weight text : String) (maxW maxH size : Nat) : Prop :=
  (wrapAt measure weight size text maxW).1.length * size * 6 ≤ maxH * 5

/-- The wrap at `size` fits and required no hard (mid-word) break. -/
def cleanAt (measure : MeasureFn) (weight text : String) (maxW maxH size : Nat) : Prop :=
  fitsAt measure weight text maxW maxH size ∧ (wrapAt measure weight size text maxW).2 = false

instance (measure : MeasureFn) (weight text : String) (maxW maxH size : Nat) :
    Decidable (fitsAt measure weight text maxW maxH size) := by
  unfold fitsAt; infer_instance

instance (measure : MeasureFn) (weight text : String) (maxW maxH size : Nat) :
    Decidable (cleanAt measure weight text maxW maxH size) := by
  unfold cleanAt; infer_instance

/-! ### Resource safety validator (drawer.ts:25-84) -/

/-- The fields of `new URL(u)` that `validateUrl` reads. -/
structure UrlParts where
  protocol : String
  hostname : String
deriving Repr, DecidableEq

/-- A thrown JS value: either an instance of this repository's `ClientError`
class (src/errors.ts, not included in the sources) or anything else (URL
`TypeError`, DNS errors, axios errors, decode errors — none of which are
`ClientError`s). -/
inductive JsError where
  | client (msg : String)
  | other (msg : String)
deriving Repr, DecidableEq

/-- External collaborators: URL parsing (`none` = the `URL` constructor
throws), DNS resolution (`dns/promises.lookup`), and the combined
`axios.get` + `loadImage` fetch/decode step (`none` = any non-`ClientError`
failure; axios and node-canvas never throw `ClientError`). -/
structure Env where
  parseUrl : String → Option UrlParts
  lookup : String → Except String String
  fetchImage : String → Option Nat

/-- The IPv4 branch of the private-address check (drawer.ts:37-46); the code
reads only `parts[0]` and `parts[1]`, and every comparison with `NaN` is
false. -/
def isPrivateIPv4Parts (parts : List (Option Nat)) : Bool :=
  optEq (parts.getD 0 none) 10
  || (optEq (parts.getD 0 none) 172 && optGe (parts.getD 1 none) 16 && optLe (parts.getD 1 none) 31)
  || (optEq (parts.getD 0 none) 192 && optEq (parts.getD 1 none) 168)
  || optEq (parts.getD 0 none) 127
  || optEq (parts.getD 0 none) 0

/-- The private/local classification of a resolved address (drawer.ts:36-52).
Both throwing branches raise the same `ClientError`, so the nested `if`s fold
into one predicate. -/
def isPrivateAddress (address : String) : Bool :=
  let parts := (jsSplit address '.').map jsNum
  if parts.length = 4 then
    isPrivateIPv4Parts parts
  else if strContains address ':' then
    address == "::1" || strBegins (jsToLower address) "fc"
      || strBegins (jsToLower address) "fe80"
  else
    false

/-- `validateUrl` (drawer.ts:25-55). -/
def validateUrl (env : Env) (inputUrl : String) : Except JsError String :=
  match env.parseUrl inputUrl with
  | none => Except.error (JsError.other "Invalid URL")
  | some parsed =>
    if parsed.protocol ≠ "http:" ∧ parsed.protocol ≠ "https:" then
      Except.error (JsError.client "Invalid protocol: must be http or https")
    else
      match env.lookup parsed.hostname with
      | Except.error e => Except.error (JsError.other e)
      | Except.ok address =>
        if isPrivateAddress address then
          Except.error (JsError.client ("Access to private IP " ++ address ++ " is forbidden"))
        else
          Except.ok inputUrl

/-- `loadItemImage` (drawer.ts:57-84): a `ClientError` is re-thrown, every
other failure (parse, DNS, fetch, decode) is swallowed and yields `null`. -/
def loadItemImage (env : Env) (url : String) : Except String (Option Nat) :=
  match validateUrl env url with
  | Except.error (JsError.client m) => Except.error m
  | Except.error (JsError.other _) => Except.ok none
  | Except.ok validatedUrl =>
    match env.fetchImage validatedUrl with
    | some img => Except.ok (some img)
    | none => Except.ok none

/-! ### Data model (src/types.ts is not in the sources; shapes follow the
tool schema in the server entry point and the spec) -/

structure Tier where
  id : String
  label : String
  color : String
deriving Repr, DecidableEq

structure TierItem where
  id : String
  tier : String
  imageUrl : Option String
  text : Option String
deriving Repr, DecidableEq

structure TierListConfig where
  title : Option String
  backgroundColor : Option String
  tiers : Option (List Tier)
  items : List TierItem
deriving Repr, DecidableEq

/-- `DEFAULT_TIERS` from `src/types.ts` (its source is included after the
related-document separator in `src/src/test-gen.ts`): the six tiers
S, A, B, C, D, F, each addressed by its letter, with the fixed colors of the
source. -/
def DEFAULT_TIERS : List Tier :=
  [⟨"S", "S", "#ff7f7f"⟩, ⟨"A", "A", "#ffbf7f"⟩, ⟨"B", "B", "#ffff7f"⟩,
   ⟨"C", "C", "#7fff7f"⟩, ⟨"D", "D", "#7f7fff"⟩, ⟨"F", "F", "#ff7fff"⟩]

/-- `config.tiers || DEFAULT_TIERS` (drawer.ts:87): only `undefined`/`null`
are falsy — an explicit empty array is kept. -/
def tiersOf (c : TierListConfig) : List Tier :=
  match c.tiers with
  | none => DEFAULT_TIERS
  | some ts => ts

/-! ### Tier bucketing (drawer.ts:96-115): a JS object keyed by tier id -/

def Buckets : Type := List (String × List TierItem)

def bucketLookup : Buckets → String → Option (List TierItem)
  | [], _ => none
  | (k', v) :: rest, k => if k' = k then some v else bucketLookup rest k

/-- JS object assignment: an existing key keeps its position, a fresh key is
appended. -/
def bucketSet : Buckets → String → List TierItem → Buckets
  | [], k, v => [(k, v)]
  | (k', v') :: rest, k, v =>
    if k' = k then (k, v) :: rest else (k', v') :: bucketSet rest k v

/-- `tiers.forEach(t => itemsByTier[t.id] = [])` (drawer.ts:97). -/
def initBuckets (tiers : List Tier) : Buckets :=
  tiers.foldl (fun m t => bucketSet m t.id []) []

/-- One iteration of the grouping loop (drawer.ts:100-115): match the item's
tier string against the bucket keys (the tier ids), else against
`t.label === tierId || t.id === tierId`, else drop the item. -/
def addItem (tiers : List Tier) (m : Buckets) (item : TierItem) : Buckets :=
  let tierId :=
    match bucketLookup m item.tier with
    | some _ => item.tier
    | none =>
      match tiers.find? (fun t => t.label == item.tier || t.id == item.tier) with
      | some found => found.id
      | none => item.tier
  match bucketLookup m tierId with
  | some l => bucketSet m tierId (l ++ [item])
  | none => m

def buckets (tiers : List Tier) (items : List TierItem) : Buckets :=
  items.foldl (addItem tiers) (initBuckets tiers)

def ceilDiv (a b : Nat) : Nat := (a + b - 1) / b

/-- `LIST_WIDTH - TIER_LABEL_WIDTH` (drawer.ts:120). -/
def contentWidth : Nat := 800 - 100

/-- `Math.floor(contentWidth / (ITEM_SIZE + PADDING))` (drawer.ts:121). -/
def itemsPerRow : Nat := contentWidth / (80 + 5)

/-- Row height for a bucket of `count` items (drawer.ts:127-128). -/
def rowHeightFor (count : Nat) : Nat :=
  max 100 (max 1 (ceilDiv count itemsPerRow) * (80 + 5) + 5)

def rowHeights (tiers : List Tier) (bux : Buckets) : List Nat :=
  tiers.map (fun t => rowHeightFor ((bucketLookup bux t.id).getD []).length)

/-- The total canvas height accumulated in drawer.ts:123-131: optional header,
then `height + 2` per tier. -/
def computedTotalHeight (c : TierListConfig) : Nat :=
  (if jsStrTruthy c.title then 60 else 0)
  + (rowHeights (tiersOf c) (buckets (tiersOf c) c.items)).foldl (fun a h => a + h + 2) 0

/-! ### Renderer trace (drawer.ts:138-209) -/

inductive DrawOp where
  | canvas (w h : Nat)
  | bgRect (color : String) (w h : Nat)
  | title (t : String)
  | labelBox (color : String) (y h : Nat)
  | labelText (label : String) (y h : Nat)
  | rowBg (y h : Nat)
  | image (img : Nat) (x y : Nat)
  | textItem (text : String) (x y : Nat)
deriving Repr, DecidableEq

/-- The coordinates of a placed item cell, if the op places one. -/
def opPos : DrawOp → Option (Nat × Nat)
  | DrawOp.image _ x y => some (x, y)
  | DrawOp.textItem _ x y => some (x, y)
  | _ => none

/-- The per-row item loop (drawer.ts:183-203): wrap the cursor when the next
cell would overflow the canvas width, then draw the image or the text
fallback.  The branch `if (item.imageUrl)` at drawer.ts:190 tests JS
truthiness, so an empty-string URL is falsy and takes the plain text path
(`item.text || 'Item'`) without any load attempt.  A `ClientError` from
`loadItemImage` aborts the render. -/
def drawItems (env : Env) : List TierItem → Nat → Nat → List DrawOp × Option String
  | [], _, _ => ([], none)
  | item :: rest, itemX, itemY =>
    let pos : Nat × Nat := if itemX + 80 > 800 then (100 + 5, itemY + 85) else (itemX, itemY)
    match item.imageUrl with
    | some url =>
      if url = "" then
        let r := drawItems env rest (pos.1 + 85) pos.2
        (DrawOp.textItem (jsOr item.text "Item") pos.1 pos.2 :: r.1, r.2)
      else
        match loadItemImage env url with
        | Except.error m => ([], some m)
        | Except.ok (some img) =>
          let r := drawItems env rest (pos.1 + 85) pos.2
          (DrawOp.image img pos.1 pos.2 :: r.1, r.2)
        | Except.ok none =>
          let r := drawItems env rest (pos.1 + 85) pos.2
          (DrawOp.textItem (jsOr item.text "?") pos.1 pos.2 :: r.1, r.2)
    | none =>
      let r := drawItems env rest (pos.1 + 85) pos.2
      (DrawOp.textItem (jsOr item.text "Item") pos.1 pos.2 :: r.1, r.2)

/-- A resolved address that is public, phrased from the spec's words (§4.1):
an IPv4 dotted quad outside the listed private/reserved first-octet ranges, or
an IPv6 global-unicast literal (2000::/3), whose canonical textual form starts
with `2` or `3` and contains no dotted-quad suffix.  Every public address a
DNS lookup can return satisfies this predicate. -/
def SpecPublicAddr (addr : String) : Prop :=
  (∃ a b c d, (jsSplit addr '.').map jsNum = [some a, some b, some c, some d] ∧
    a ≠ 0 ∧ a ≠ 10 ∧ a ≠ 127 ∧ ¬(a = 172 ∧ 16 ≤ b ∧ b ≤ 31) ∧ ¬(a = 192 ∧ b = 168))
  ∨ (strContains addr ':' = true ∧ strContains addr '.' = false ∧
    (∃ cs, addr.toList = '2' :: cs ∨ addr.toList = '3' :: cs))

/-- Sample measurement: each glyph half the font size wide. -/
def msrHalf : MeasureFn := fun _ size t => size * t.length / 2

/-- Sample measurement: every string measures 1000px. -/
def msrWide : MeasureFn := fun _ _ _ => 1000

/-- Environment whose URL parser yields an `ftp:` URL. -/
def envFtp : Env :=
  ⟨fun _ => some ⟨"ftp:", "example.com"⟩, fun _ => Except.ok "1.2.3.4", fun _ => none⟩

/-- Environment for pure-text renders (never consulted). -/
def envText : Env :=
  ⟨fun _ => none, fun _ => Except.error "x", fun _ => none⟩

/-- Scenario A of the spec: one item ranked S, default tiers, no title. -/
def sampleA : TierListConfig :=
  ⟨none, none, none, [⟨"1", "S", none, some "Apple"⟩]⟩

/-- Ten text-only items for the placement witness. -/
def items10 : List TierItem := List.replicate 10 ⟨"i", "S", none, some "t"⟩

/-! ## Lemmas about the adaptive text fitter -/

lemma fitStep_of_clean {measure : MeasureFn} {weight text : String}
    {maxW maxH size : Nat} (valid : Option FitResult)
    (h : cleanAt measure weight text maxW maxH size) :
    fitStep measure weight text maxW maxH size valid =
      Sum.inl ⟨(wrapAt measure weight size text maxW).1, size⟩ := by
  obtain ⟨h1, h2⟩ := h
  unfold fitsAt wrapAt at h1
  unfold wrapAt at h2
  unfold fitStep
  rw [if_pos h1, if_pos h2]
  rfl

lemma fitStep_of_not_clean {measure : MeasureFn} {weight text : String}
    {maxW maxH size : Nat} (valid : Option FitResult)
    (h : ¬ cleanAt measure weight text maxW maxH size) :
    fitStep measure weight text maxW maxH size valid =
      Sum.inr (if fitsAt measure weight text maxW maxH size then
        (valid <|> some ⟨(wrapAt measure weight size text maxW).1, size⟩) else valid) := by
  by_cases hf : fitsAt measure weight text maxW maxH size
  · have h2 : ¬ (wrapAt measure weight size text maxW).2 = false := fun hb => h ⟨hf, hb⟩
    have hf2 := hf
    unfold fitsAt wrapAt at hf
    unfold wrapAt at h2
    unfold fitStep
    rw [if_pos hf, if_neg h2, if_pos hf2]
    rfl
  · have hf' := hf
    unfold fitsAt wrapAt at hf'
    unfold fitStep
    rw [if_neg hf', if_neg hf]

lemma fitAux_skip {measure : MeasureFn} {weight text : String} {maxW maxH : Nat} :
    ∀ (k : Nat) (r : FitResult),
      (∀ j, j ≤ k → ¬ cleanAt measure weight text maxW maxH (8 + j)) →
      fitAux measure weight text maxW maxH k (some r) = r := by
  intro k
  induction k with
  | zero =>
    intro r h
    rw [fitAux, fitStep_of_not_clean (some r) (h 0 (le_refl 0))]
    by_cases hf : fitsAt measure weight text maxW maxH (8 + 0)
    · simp only [Nat.add_zero] at hf ⊢
      rw [if_pos hf]
      rfl
    · simp only [Nat.add_zero] at hf ⊢
      rw [if_neg hf]
  | succ k ih =>
    intro r h
    rw [fitAux, fitStep_of_not_clean (some r) (h (k + 1) (le_refl _))]
    by_cases hf : fitsAt measure weight text maxW maxH (8 + (k + 1))
    · rw [if_pos hf]
      exact ih r (fun j hj => h j (by omega))
    · rw [if_neg hf]
      exact ih r (fun j hj => h j (by omega))

lemma fitAux_clean {measure : MeasureFn} {weight text : String} {maxW maxH : Nat} :
    ∀ (k : Nat) (valid : Option FitResult) (s : Nat),
      8 ≤ s → s ≤ 8 + k →
      cleanAt measure weight text maxW maxH s →
      (∀ s', s' ≤ 8 + k → s < s' → ¬ cleanAt measure weight text maxW maxH s') →
      fitAux measure weight text maxW maxH k valid =
        ⟨(wrapAt measure weight s text maxW).1, s⟩ := by
  intro k
  induction k with
  | zero =>
    intro valid s h8 hk hc _
    have hs : s = 8 := by omega
    subst hs
    rw [fitAux, fitStep_of_clean valid hc]
  | succ k ih =>
    intro valid s h8 hk hc hmax
    by_cases hs : s = 8 + (k + 1)
    · subst hs
      rw [fitAux, fitStep_of_clean valid hc]
    · have hnc : ¬ cleanAt measure weight text maxW maxH (8 + (k + 1)) :=
        hmax (8 + (k + 1)) (le_refl _) (by omega)
      rw [fitAux, fitStep_of_not_clean valid hnc]
      exact ih _ s h8 (by omega) hc (fun s' h1 h2 => hmax s' (by omega) h2)

lemma fitAux_breaks {measure : MeasureFn} {weight text : String} {maxW maxH : Nat} :
    ∀ (k : Nat) (s : Nat),
      (∀ j, j ≤ k → ¬ cleanAt measure weight text maxW maxH (8 + j)) →
      8 ≤ s → s ≤ 8 + k →
      fitsAt measure weight text maxW maxH s →
      (∀ s', s' ≤ 8 + k → s < s' → ¬ fitsAt measure weight text maxW maxH s') →
      fitAux measure weight text maxW maxH k none =
        ⟨(wrapAt measure weight s text maxW).1, s⟩ := by
  intro k
  induction k with
  | zero =>
    intro s hnc h8 hk hf _
    have hs : s = 8 := by omega
    subst hs
    rw [fitAux, fitStep_of_not_clean none (hnc 0 (le_refl 0))]
    simp only [Nat.add_zero] at *
    rw [if_pos hf]
    rfl
  | succ k ih =>
    intro s hnc h8 hk hf hmax
    by_cases hs : s = 8 + (k + 1)
    · subst hs
      rw [fitAux, fitStep_of_not_clean none (hnc (k + 1) (le_refl _))]
      rw [if_pos hf]
      exact fitAux_skip k _ (fun j hj => hnc j (by omega))
    · have hnf : ¬ fitsAt measure weight text maxW maxH (8 + (k + 1)) :=
        hmax (8 + (k + 1)) (le_refl _) (by omega)
      rw [fitAux, fitStep_of_not_clean none (hnc (k + 1) (le_refl _))]
      rw [if_neg hnf]
      exact ih s (fun j hj => hnc j (by omega)) h8 (by omega) hf
        (fun s' h1 h2 => hmax s' (by omega) h2)

lemma fitAux_fallback {measure : MeasureFn} {weight text : String} {maxW maxH : Nat} :
    ∀ (k : Nat),
      (∀ j, j ≤ k → ¬ fitsAt measure weight text maxW maxH (8 + j)) →
      fitAux measure weight text maxW maxH k none =
        ⟨(wrapAt measure weight 8 text maxW).1, 8⟩ := by
  intro k
  induction k with
  | zero =>
    intro h
    rw [fitAux, fitStep_of_not_clean none (fun hc => h 0 (le_refl 0) hc.1)]
    rw [if_neg (h 0 (le_refl 0))]
    rfl
  | succ k ih =>
    intro h
    rw [fitAux, fitStep_of_not_clean none (fun hc => h (k + 1) (le_refl _) hc.1)]
    rw [if_neg (h (k + 1) (le_refl _))]
    exact ih (fun j hj => h j (by omega))

lemma startSizeOf_ge_8 (weight : String) : 8 ≤ startSizeOf weight := by
  unfold startSizeOf
  split <;> omega

/-- C4: for non-empty text, if some integer size in the descending range
(startSize down to 8) yields a greedy wrap that fits the box height with no
hard mid-word break, `fitText` returns the largest such size together with
that wrap; a result with hard breaks is returned only when no size in the
range fits cleanly, and it is then the largest size whose wrap fits at
all. -/
theorem fitText_returns_largest_clean_else_largest_fitting
    (measure : MeasureFn) (weight text : String) (maxW maxH s : Nat)
    (htext : text ≠ "") (h8 : 8 ≤ s) (hstart : s ≤ startSizeOf weight) :
    (cleanAt measure weight text maxW maxH s →
      (∀ s', s' ≤ startSizeOf weight → s < s' →
        ¬ cleanAt measure weight text maxW maxH s') →
      fitText measure text maxW maxH weight =
        ⟨(wrapAt measure weight s text maxW).1, s⟩)
    ∧ ((∀ s', s' ≤ startSizeOf weight → 8 ≤ s' →
        ¬ cleanAt measure weight text maxW maxH s') →
      fitsAt measure weight text maxW maxH s →
      (∀ s', s' ≤ startSizeOf weight → s < s' →
        ¬ fitsAt measure weight text maxW maxH s') →
      fitText measure text maxW maxH weight =
        ⟨(wrapAt measure weight s text maxW).1, s⟩) := by
  have hs8 := startSizeOf_ge_8 weight
  have hk : 8 + (startSizeOf weight - 8) = startSizeOf weight := by omega
  constructor
  · intro hc hmax
    unfold fitText
    rw [if_neg htext]
    exact fitAux_clean (startSizeOf weight - 8) none s h8 (by omega) hc
      (fun s' h1 h2 => hmax s' (by omega) h2)
  · intro hnc hf hmax
    unfold fitText
    rw [if_neg htext]
    exact fitAux_breaks (startSizeOf weight - 8) s
      (fun j hj => hnc (8 + j) (by omega) (by omega)) h8 (by omega) hf
      (fun s' h1 h2 => hmax s' (by omega) h2)

/-- Witness for C4: with a glyph width of half the font size, `"ab"` in a
72×72 box fits cleanly at the top size 16, and `fitText` returns it. -/
theorem fitText_returns_largest_clean_else_largest_fitting_witness :
    fitText msrHalf "ab" 72 72 "normal" = ⟨["ab"], 16⟩ :=
  (fitText_returns_largest_clean_else_largest_fitting msrHalf "normal" "ab" 72 72 16
      (by decide) (by decide) (by decide)).1
    (by decide)
    (fun s' h1 h2 => absurd (Nat.lt_of_lt_of_le h2 h1) (lt_irrefl 16))

/-- C5: `fitText` is total: empty text yields no lines at the default size
12, and when no size in the range fits even with hard breaks it returns the
8px hard-broken wrap, whether or not that still overflows the box. -/
theorem fitText_total_empty_and_fallback
    (measure : MeasureFn) (weight text : String) (maxW maxH : Nat) :
    fitText measure "" maxW maxH weight = ⟨[], 12⟩
    ∧ (text ≠ "" →
      (∀ s, s ≤ startSizeOf weight → 8 ≤ s →
        ¬ fitsAt measure weight text maxW maxH s) →
      fitText measure text maxW maxH weight =
        ⟨(wrapAt measure weight 8 text maxW).1, 8⟩) := by
  constructor
  · rfl
  · intro htext hnf
    unfold fitText
    rw [if_neg htext]
    have hs8 := startSizeOf_ge_8 weight
    exact fitAux_fallback (startSizeOf weight - 8)
      (fun j hj => hnf (8 + j) (by omega) (by omega))

/-- Witness for C5: under a measurement that reports 1000px for every string,
nothing fits a 10×10 box, and `fitText` still returns the 8px hard-broken
lines; the empty string returns no lines at size 12. -/
theorem fitText_total_empty_and_fallback_witness :
    fitText msrWide "" 10 10 "normal" = ⟨[], 12⟩ ∧
    fitText msrWide "hi" 10 10 "normal" = ⟨["", "h", "i"], 8⟩ :=
  ⟨(fitText_total_empty_and_fallback msrWide "normal" "hi" 10 10).1,
   ((fitText_total_empty_and_fallback msrWide "normal" "hi" 10 10).2
      (by decide) (by decide)).trans (by decide)⟩

/-! ## Lemmas about the resource-safety validator -/

lemma splitChars_no_sep {sep : Char} : ∀ {cs : List Char}, sep ∉ cs →
    splitChars sep cs = [cs] := by
  intro cs
  induction cs with
  | nil => intro _; rfl
  | cons c cs ih =>
    intro h
    have hc : ¬ c = sep := fun he => h (he ▸ List.mem_cons_self c cs)
    have hrest : sep ∉ cs := fun hm => h (List.mem_cons_of_mem c hm)
    simp [splitChars, ih hrest, hc]

lemma mk_toList (s : String) : String.mk s.toList = s := rfl

lemma jsSplit_no_dot {addr : String} (h : strContains addr '.' = false) :
    jsSplit addr '.' = [addr] := by
  have hmem : '.' ∉ addr.toList := by
    intro hm
    have : addr.toList.contains '.' = true := List.elem_iff.mpr hm
    rw [strContains] at h
    rw [h] at this
    cases this
  rw [jsSplit, splitChars_no_sep hmem, List.map_cons, List.map_nil, mk_toList]

lemma isPrivateIPv4Parts_true {a b : Nat} (c d : Option Nat)
    (h : a = 10 ∨ (a = 172 ∧ 16 ≤ b ∧ b ≤ 31) ∨ (a = 192 ∧ b = 168) ∨ a = 127 ∨ a = 0) :
    isPrivateIPv4Parts [some a, some b, c, d] = true := by
  simp only [isPrivateIPv4Parts, optEq, optGe, optLe, List.getD_cons_zero,
    List.getD_cons_succ, Bool.or_eq_true, Bool.and_eq_true, beq_iff_eq,
    decide_eq_true_eq]
  omega

lemma isPrivateIPv4Parts_false {a b : Nat} (c d : Option Nat)
    (h0 : a ≠ 0) (h10 : a ≠ 10) (h127 : a ≠ 127)
    (h172 : ¬(a = 172 ∧ 16 ≤ b ∧ b ≤ 31)) (h192 : ¬(a = 192 ∧ b = 168)) :
    isPrivateIPv4Parts [some a, some b, c, d] = false := by
  simp only [isPrivateIPv4Parts, optEq, optGe, optLe, List.getD_cons_zero,
    List.getD_cons_succ, Bool.or_eq_false_iff, Bool.and_eq_false_iff,
    beq_eq_false_iff_ne, ne_eq, decide_eq_false_iff_not]
  omega

/-- Unfolding of `isPrivateAddress` with the `let` resolved. -/
lemma isPrivateAddress_eq (addr : String) :
    isPrivateAddress addr =
      if ((jsSplit addr '.').map jsNum).length = 4 then
        isPrivateIPv4Parts ((jsSplit addr '.').map jsNum)
      else if strContains addr ':' then
        addr == "::1" || strBegins (jsToLower addr) "fc"
          || strBegins (jsToLower addr) "fe80"
      else false := rfl

lemma charsBegin_head_ne {c p : Char} (cs ps : List Char) (h : (c == p) = false) :
    charsBegin (c :: cs) (p :: ps) = false := by
  unfold charsBegin
  rw [h, Bool.false_and]

lemma validateUrl_after_lookup {env : Env} {url : String} {p : UrlParts} {addr : String}
    (hp : env.parseUrl url = some p)
    (hpr : p.protocol = "http:" ∨ p.protocol = "https:")
    (hlk : env.lookup p.hostname = Except.ok addr) :
    validateUrl env url =
      if isPrivateAddress addr then
        Except.error (JsError.client ("Access to private IP " ++ addr ++ " is forbidden"))
      else Except.ok url := by
  have hnot : ¬ (p.protocol ≠ "http:" ∧ p.protocol ≠ "https:") := by
    rcases hpr with h | h <;> simp [h]
  simp only [validateUrl, hp]
  rw [if_neg hnot]
  simp only [hlk]

/-- C2: `validateUrl` rejects any non-http(s) scheme with a `ClientError`
independently of DNS (the statement holds for every `Env`, hence for every
lookup function, so no resolution is consulted); any hostname resolving to an
IPv4 address in 10/8, 172.16/12, 192.168/16, 127/8, to the literal
`0.0.0.0`, or to an IPv6 address equal to `::1` or starting with `fc`/`fe80`
is rejected with a `ClientError` (so `loadItemImage` never reaches the fetch
step for it); and any http(s) URL resolving to a public address
(`SpecPublicAddr`) is returned unchanged. -/
theorem validateUrl_scheme_and_ip_policy
    (env : Env) (url : String) (p : UrlParts)
    (hp : env.parseUrl url = some p) :
    (p.protocol ≠ "http:" → p.protocol ≠ "https:" →
      validateUrl env url =
        Except.error (JsError.client "Invalid protocol: must be http or https"))
    ∧ (∀ addr, (p.protocol = "http:" ∨ p.protocol = "https:") →
        env.lookup p.hostname = Except.ok addr →
        ((∀ a b c d, (jsSplit addr '.').map jsNum = [some a, some b, some c, some d] →
            (a = 10 ∨ (a = 172 ∧ 16 ≤ b ∧ b ≤ 31) ∨ (a = 192 ∧ b = 168) ∨ a = 127 ∨
              addr = "0.0.0.0") →
            validateUrl env url =
              Except.error (JsError.client ("Access to private IP " ++ addr ++ " is forbidden")))
        ∧ ((jsSplit addr '.').length ≠ 4 → strContains addr ':' = true →
            (addr = "::1" ∨ strBegins (jsToLower addr) "fc" = true ∨
              strBegins (jsToLower addr) "fe80" = true) →
            validateUrl env url =
              Except.error (JsError.client ("Access to private IP " ++ addr ++ " is forbidden")))
        ∧ (SpecPublicAddr addr → validateUrl env url = Except.ok url))) := by
  refine ⟨?_, ?_⟩
  · intro h1 h2
    simp only [validateUrl, hp]
    rw [if_pos (And.intro h1 h2)]
  · intro addr hpr hlk
    rw [validateUrl_after_lookup hp hpr hlk]
    refine ⟨?_, ?_, ?_⟩
    · intro a b c d hquad hrange
      rw [if_pos]
      by_cases h0 : addr = "0.0.0.0"
      · subst h0; decide
      · have hrange' : a = 10 ∨ (a = 172 ∧ 16 ≤ b ∧ b ≤ 31) ∨ (a = 192 ∧ b = 168) ∨
            a = 127 ∨ a = 0 := by tauto
        rw [isPrivateAddress_eq, hquad]
        rw [if_pos (by rfl)]
        exact isPrivateIPv4Parts_true _ _ hrange'
    · intro hlen hcol hflag
      rw [if_pos]
      rw [isPrivateAddress_eq]
      rw [if_neg (by rw [List.length_map]; exact hlen), if_pos hcol]
      rcases hflag with h | h | h
      · subst h; decide
      · rw [h]; simp
      · rw [h]; simp
    · intro hpub
      rw [if_neg]
      rw [Bool.not_eq_true]
      rcases hpub with ⟨a, b, c, d, hquad, h0, h10, h127, h172, h192⟩ | ⟨hcol, hdot, cs, hhd⟩
      · rw [isPrivateAddress_eq, hquad, if_pos (by rfl)]
        exact isPrivateIPv4Parts_false _ _ h0 h10 h127 h172 h192
      · have hne : addr ≠ "::1" := by
          intro he
          rcases hhd with h | h <;> rw [he] at h <;> cases h
        have hlow : ∀ (c0 : Char) (rest : List Char), addr.toList = c0 :: rest →
            (jsToLower addr).toList = Char.toLower c0 :: rest.map Char.toLower := by
          intro c0 rest hr
          show addr.toList.map Char.toLower = _
          rw [hr, List.map_cons]
        have hfc : "fc".toList = 'f' :: ['c'] := rfl
        have hfe : "fe80".toList = 'f' :: ['e', '8', '0'] := rfl
        rw [isPrivateAddress_eq, jsSplit_no_dot hdot]
        rw [if_neg (by simp), if_pos hcol]
        have e1 : (addr == "::1") = false := beq_eq_false_iff_ne.mpr hne
        have e2 : strBegins (jsToLower addr) "fc" = false := by
          rw [strBegins, hfc]
          rcases hhd with h | h <;>
            rw [hlow _ _ h] <;> exact charsBegin_head_ne _ _ (by decide)
        have e3 : strBegins (jsToLower addr) "fe80" = false := by
          rw [strBegins, hfe]
          rcases hhd with h | h <;>
            rw [hlow _ _ h] <;> exact charsBegin_head_ne _ _ (by decide)
        rw [e1, e2, e3]
        rfl

/-- Witness for C2: an `ftp:` URL is rejected with the protocol
`ClientError` (for a lookup that would have resolved publicly). -/
theorem validateUrl_scheme_and_ip_policy_witness :
    validateUrl envFtp "ftp://example.com/a" =
      Except.error (JsError.client "Invalid protocol: must be http or https") :=
  (validateUrl_scheme_and_ip_policy envFtp "ftp://example.com/a"
      ⟨"ftp:", "example.com"⟩ rfl).1 (by decide) (by decide)

/-! ## Lemmas about the layout -/

lemma foldl_add_sep : ∀ (hs : List Nat) (a : Nat),
    hs.foldl (fun x h => x + h + 2) a = a + hs.sum + 2 * hs.length := by
  intro hs
  induction hs with
  | nil => intro a; simp
  | cons h t ih =>
    intro a
    rw [List.foldl_cons, ih, List.sum_cons, List.length_cons]
    omega

/-- C7: the code's row height (with its `max 1` row count) coincides with the
spec's `max(minRowHeight, ceil(count / itemsPerRow) × 85 + 5)` for every
count (empty rows get the 100px minimum); the total canvas height is the
optional 60px header (present iff the title is truthy) plus the sum of row
heights plus 2px per row; and scenario A (one item ranked S, default tiers,
no title) computes to 6 × 100 + 6 × 2 = 612. -/
theorem row_and_total_height_formula (c : TierListConfig) (_hc : c.items.length ≤ 50) :
    (∀ count, rowHeightFor count = max 100 (ceilDiv count itemsPerRow * (80 + 5) + 5))
    ∧ computedTotalHeight c = (if jsStrTruthy c.title then 60 else 0)
        + (rowHeights (tiersOf c) (buckets (tiersOf c) c.items)).sum
        + 2 * (tiersOf c).length
    ∧ computedTotalHeight sampleA = 612 := by
  refine ⟨?_, ?_, by decide⟩
  · intro count
    simp only [rowHeightFor, ceilDiv, itemsPerRow, contentWidth]
    omega
  · rw [computedTotalHeight, foldl_add_sep]
    rw [show (rowHeights (tiersOf c) (buckets (tiersOf c) c.items)).length
        = (tiersOf c).length from List.length_map _ _]
    omega

/-- Witness for C7: scenario A computes to 612px. -/
theorem row_and_total_height_formula_witness :
    computedTotalHeight sampleA = 612 :=
  (row_and_total_height_formula sampleA (by decide)).2.2

/-- One step of the item loop, with the wrap decision exposed: either the item
aborts (client error, no op emitted), or it wraps to the next visual row, or
it is placed at the cursor. -/
lemma drawItems_cons_cases (env : Env) (it : TierItem) (rest : List TierItem) (x y : Nat) :
    ((drawItems env (it :: rest) x y).1 = [] ∧ (drawItems env (it :: rest) x y).2 ≠ none)
    ∨ (x + 80 > 800 ∧ ∃ op₀, opPos op₀ = some (100 + 5, y + 85) ∧
        (drawItems env (it :: rest) x y).1 =
          op₀ :: (drawItems env rest (100 + 5 + 85) (y + 85)).1 ∧
        (drawItems env (it :: rest) x y).2 =
          (drawItems env rest (100 + 5 + 85) (y + 85)).2)
    ∨ (¬ (x + 80 > 800) ∧ ∃ op₀, opPos op₀ = some (x, y) ∧
        (drawItems env (it :: rest) x y).1 =
          op₀ :: (drawItems env rest (x + 85) y).1 ∧
        (drawItems env (it :: rest) x y).2 =
          (drawItems env rest (x + 85) y).2) := by
  cases himg : it.imageUrl with
  | none =>
    by_cases hcond : x + 80 > 800
    · exact Or.inr (Or.inl ⟨hcond,
        DrawOp.textItem (jsOr it.text "Item") (100 + 5) (y + 85), rfl,
        by simp only [drawItems, himg]; rw [if_pos hcond],
        by simp only [drawItems, himg]; rw [if_pos hcond]⟩)
    · exact Or.inr (Or.inr ⟨hcond,
        DrawOp.textItem (jsOr it.text "Item") x y, rfl,
        by simp only [drawItems, himg]; rw [if_neg hcond],
        by simp only [drawItems, himg]; rw [if_neg hcond]⟩)
  | some u =>
    by_cases hu : u = ""
    · subst hu
      by_cases hcond : x + 80 > 800
      · exact Or.inr (Or.inl ⟨hcond,
          DrawOp.textItem (jsOr it.text "Item") (100 + 5) (y + 85), rfl,
          by simp only [drawItems, himg, eq_self_iff_true, if_true]; rw [if_pos hcond],
          by simp only [drawItems, himg, eq_self_iff_true, if_true]; rw [if_pos hcond]⟩)
      · exact Or.inr (Or.inr ⟨hcond,
          DrawOp.textItem (jsOr it.text "Item") x y, rfl,
          by simp only [drawItems, himg, eq_self_iff_true, if_true]; rw [if_neg hcond],
          by simp only [drawItems, himg, eq_self_iff_true, if_true]; rw [if_neg hcond]⟩)
    · cases hld : loadItemImage env u with
      | error m =>
        refine Or.inl ⟨?_, ?_⟩
        · simp only [drawItems, himg, if_neg hu, hld]
        · simp only [drawItems, himg, if_neg hu, hld]
          exact fun h => Option.noConfusion h
      | ok o =>
        cases o with
        | some img =>
          by_cases hcond : x + 80 > 800
          · exact Or.inr (Or.inl ⟨hcond, DrawOp.image img (100 + 5) (y + 85), rfl,
              by simp only [drawItems, himg, if_neg hu, hld]; rw [if_pos hcond],
              by simp only [drawItems, himg, if_neg hu, hld]; rw [if_pos hcond]⟩)
          · exact Or.inr (Or.inr ⟨hcond, DrawOp.image img x y, rfl,
              by simp only [drawItems, himg, if_neg hu, hld]; rw [if_neg hcond],
              by simp only [drawItems, himg, if_neg hu, hld]; rw [if_neg hcond]⟩)
        | none =>
          by_cases hcond : x + 80 > 800
          · exact Or.inr (Or.inl ⟨hcond,
              DrawOp.textItem (jsOr it.text "?") (100 + 5) (y + 85), rfl,
              by simp only [drawItems, himg, if_neg hu, hld]; rw [if_pos hcond],
              by simp only [drawItems, himg, if_neg hu, hld]; rw [if_pos hcond]⟩)
          · exact Or.inr (Or.inr ⟨hcond,
              DrawOp.textItem (jsOr it.text "?") x y, rfl,
              by simp only [drawItems, himg, if_neg hu, hld]; rw [if_neg hcond],
              by simp only [drawItems, himg, if_neg hu, hld]; rw [if_neg hcond]⟩)

lemma drawItems_bound (env : Env) (rowTop : Nat) :
    ∀ (l : List TierItem) (x y i r : Nat), i ≤ 8 →
      x = 105 + 85 * i → y = rowTop + 5 + 85 * r →
      ∀ op ∈ (drawItems env l x y).1, ∀ a b, opPos op = some (a, b) →
        a + 80 ≤ 800 ∧ rowTop ≤ b ∧
        b ≤ rowTop + 5 + 85 * (r + (i + l.length - 1) / 8) := by
  intro l
  induction l with
  | nil =>
    intro x y i r _ _ _ op hop
    simp [drawItems] at hop
  | cons it rest ih =>
    intro x y i r hi hx hy op hop a b hab
    rcases drawItems_cons_cases env it rest x y with ⟨hnil, _⟩ |
        ⟨hwrap, op₀, hpos, hops, _⟩ | ⟨hstay, op₀, hpos, hops, _⟩
    · rw [hnil] at hop
      cases hop
    · have h8 : i = 8 := by omega
      rw [hops] at hop
      simp only [List.length_cons]
      rcases List.mem_cons.mp hop with rfl | hrec
      · have h2 := hpos.symm.trans hab
        rw [Option.some.injEq, Prod.mk.injEq] at h2
        obtain ⟨ha, hb⟩ := h2
        subst h8
        refine ⟨by omega, by omega, by omega⟩
      · have hb := ih (100 + 5 + 85) (y + 85) 1 (r + 1) (by omega) (by omega) (by omega)
          op hrec a b hab
        subst h8
        refine ⟨hb.1, hb.2.1, ?_⟩
        have := hb.2.2
        omega
    · have h8 : i < 8 := by omega
      rw [hops] at hop
      simp only [List.length_cons]
      rcases List.mem_cons.mp hop with rfl | hrec
      · have h2 := hpos.symm.trans hab
        rw [Option.some.injEq, Prod.mk.injEq] at h2
        obtain ⟨ha, hb⟩ := h2
        refine ⟨by omega, by omega, by omega⟩
      · have hb := ih (x + 85) y (i + 1) r (by omega) (by omega) hy op hrec a b hab
        refine ⟨hb.1, hb.2.1, ?_⟩
        have := hb.2.2
        omega

lemma drawItems_index (env : Env) (rowTop : Nat) :
    ∀ (l : List TierItem) (x y i r : Nat), i ≤ 8 →
      x = 105 + 85 * i → y = rowTop + 5 + 85 * r →
      (drawItems env l x y).2 = none →
      (drawItems env l x y).1.length = l.length ∧
      ∀ k (hk : k < (drawItems env l x y).1.length),
        opPos ((drawItems env l x y).1.get ⟨k, hk⟩) =
          some (105 + 85 * ((i + k) % 8), rowTop + 5 + 85 * (r + (i + k) / 8)) := by
  intro l
  induction l with
  | nil =>
    intro x y i r _ _ _ _
    refine ⟨rfl, ?_⟩
    intro k hk
    simp [drawItems] at hk
  | cons it rest ih =>
    intro x y i r hi hx hy herr
    rcases drawItems_cons_cases env it rest x y with ⟨_, hne⟩ |
        ⟨hwrap, op₀, hpos, hops, herr2⟩ | ⟨hstay, op₀, hpos, hops, herr2⟩
    · exact absurd herr hne
    · have h8 : i = 8 := by omega
      rw [herr2] at herr
      obtain ⟨hlen, hidx⟩ := ih (100 + 5 + 85) (y + 85) 1 (r + 1) (by omega) (by omega)
        (by omega) herr
      subst h8
      rw [hops]
      simp only [List.length_cons]
      refine ⟨by rw [hlen], ?_⟩
      intro k hk
      match k with
      | 0 =>
        rw [List.get]
        rw [hpos, Option.some.injEq, Prod.mk.injEq]
        constructor <;> omega
      | k + 1 =>
        rw [List.get]
        rw [hidx k (by rw [hlen]; rw [hlen] at hk; omega)]
        rw [Option.some.injEq, Prod.mk.injEq]
        constructor <;> omega
    · have h8 : i < 8 := by omega
      rw [herr2] at herr
      obtain ⟨hlen, hidx⟩ := ih (x + 85) y (i + 1) r (by omega) (by omega) hy herr
      rw [hops]
      simp only [List.length_cons]
      refine ⟨by rw [hlen], ?_⟩
      intro k hk
      match k with
      | 0 =>
        rw [List.get]
        rw [hpos, Option.some.injEq, Prod.mk.injEq]
        constructor <;> omega
      | k + 1 =>
        rw [List.get]
        rw [hidx k (by rw [hlen]; rw [hlen] at hk; omega)]
        rw [Option.some.injEq, Prod.mk.injEq]
        constructor <;> omega

/-- C8: the renderer's wrap rule places exactly `itemsPerRow = floor(700/85)
= 8` items per visual row — the `k`-th placed op of an error-free row sits at
`x = 105 + 85·(k mod itemsPerRow)`, `y = rowTop + 5 + 85·(k div itemsPerRow)`
— and every placed item cell lies within the 800px canvas width and within
the row height the layout engine declared for that item count. -/
theorem item_placement_agrees_with_layout :
    itemsPerRow = contentWidth / (80 + 5) ∧ itemsPerRow = 8 ∧
    ∀ (env : Env) (l : List TierItem) (rowTop : Nat),
      ((drawItems env l (100 + 5) (rowTop + 5)).2 = none →
        (drawItems env l (100 + 5) (rowTop + 5)).1.length = l.length ∧
        ∀ k (hk : k < (drawItems env l (100 + 5) (rowTop + 5)).1.length),
          opPos ((drawItems env l (100 + 5) (rowTop + 5)).1.get ⟨k, hk⟩) =
            some (105 + 85 * (k % itemsPerRow), rowTop + 5 + 85 * (k / itemsPerRow)))
      ∧ (∀ op ∈ (drawItems env l (100 + 5) (rowTop + 5)).1, ∀ a b,
          opPos op = some (a, b) →
          a + 80 ≤ 800 ∧ rowTop ≤ b ∧ b + 80 ≤ rowTop + rowHeightFor l.length) := by
  refine ⟨rfl, rfl, ?_⟩
  intro env l rowTop
  constructor
  · intro herr
    obtain ⟨hlen, hidx⟩ := drawItems_index env rowTop l (100 + 5) (rowTop + 5) 0 0
      (by omega) (by omega) (by omega) herr
    refine ⟨hlen, ?_⟩
    intro k hk
    rw [hidx k hk, Option.some.injEq, Prod.mk.injEq]
    have hipr : itemsPerRow = 8 := rfl
    rw [hipr]
    constructor <;> omega
  · intro op hop a b hab
    have hb := drawItems_bound env rowTop l (100 + 5) (rowTop + 5) 0 0
      (by omega) (by omega) (by omega) op hop a b hab
    refine ⟨hb.1, hb.2.1, ?_⟩
    have h3 := hb.2.2
    simp only [rowHeightFor, ceilDiv, itemsPerRow, contentWidth]
    omega

/-- Witness for C8: ten text items in one row trace produce ten ops (eight in
the first visual row, two wrapped). -/
theorem item_placement_agrees_with_layout_witness :
    (drawItems envText items10 (100 + 5) (0 + 5)).1.length = 10 :=
  ((((item_placement_agrees_with_layout).2.2 envText items10 0).1 (by decide)).1).trans
    (by decide)

/-! ## Lemmas about the tier bucket map -/

end TierMCP

